import Mathlib

/-!
# eForth virtual machine (goForth): a shallow embedding

The Go program keeps the whole machine in package-level variables.  Here the
machine is one record `State`, and every primitive of `vmbasic.go` is a function
on it.  A primitive that can make the Go runtime panic (an index outside an
array, an integer division by zero) or end the process returns in
`Except Stop State`; the others are total functions `State → State`.

Conventions:
* cells (`int32`) are integers kept in `[-2^31, 2^31)` by `wrap32`;
  the 64-bit scratch registers are kept in range by `wrap64`;
* memory cells (`uint32`) are integers kept in `[0, 2^32)` by `u32`;
* the one-byte stack pointers `S` and `R` are elements of `Fin 256`, whose
  addition and subtraction wrap modulo 256 like a Go `byte`;
* `x >> 2` on a signed 32-bit value is the floor division `x / 4`;
* Go's `/` and `%` on signed integers truncate toward zero: `Int.tdiv`, `Int.tmod`.
-/

namespace EForth

/-- Ways in which the Go program stops instead of returning from a primitive. -/
inductive Stop where
  | indexOutOfRange
  | divideByZero
  | nilCall
  | exit
  deriving DecidableEq, Repr

/-- What the program writes to its standard output. -/
inductive OutEvent where
  | banner
  | char (c : Int)
  | illegal (code : Int) (p : Int)
  deriving DecidableEq, Repr

/-- FALSE flag set to 0. -/
def FALSE : Int := 0

/-- TRUE flag set to -1. -/
def TRUE : Int := -1

/-- Rom size definition: the number of cells of `Data`. -/
def romsize : Int := 4096

/-- Conversion to `int32`: the representative in `[-2^31, 2^31)`. -/
def wrap32 (x : Int) : Int := (x + 2147483648) % 4294967296 - 2147483648

/-- Conversion to `uint32`: the representative in `[0, 2^32)`. -/
def u32 (x : Int) : Int := x % 4294967296

/-- Conversion to `int64`: the representative in `[-2^63, 2^63)`. -/
def wrap64 (x : Int) : Int :=
  (x + 9223372036854775808) % 18446744073709551616 - 9223372036854775808

/-- Conversion to `byte`. -/
def u8 (x : Int) : Int := x % 256

/-- Conversion of a cell to a `byte` used as a stack index. -/
def toByte (x : Int) : Fin 256 := Fin.ofNat (x % 256).toNat

/-- The machine: every package-level variable of `vmbasic.go`, the memory block
`Data`, the pending console input and the output written so far. -/
structure State where
  rack : Fin 256 → Int
  Stack : Fin 256 → Int
  d : Int
  n : Int
  m : Int
  R : Fin 256
  S : Fin 256
  Top : Int
  P : Int
  IP : Int
  WP : Int
  Data : Int → Int
  Bytecode : Int
  inputtext : List Int
  strCount : Int
  reading : Bool
  q : Int
  stdin : List (List Int)
  out : List OutEvent

/-- Modelled from the spec: the array `Data` of package `rom` is not among the
sources; it is one block of `romsize` 32-bit cells.  Reading `Data[i]` panics
when `i` is outside `[0, romsize)`. -/
def readData (s : State) (i : Int) : Except Stop Int :=
  if 0 ≤ i ∧ i < romsize then .ok (s.Data i) else .error .indexOutOfRange

/-- Writing `Data[i] = v`, with the same index check as `readData`. -/
def writeData (s : State) (i : Int) (v : Int) : Except Stop State :=
  if 0 ≤ i ∧ i < romsize then .ok { s with Data := Function.update s.Data i v }
  else .error .indexOutOfRange

/-- Byte `k` (0 is the least significant) of a memory cell. -/
def byteOf (w : Int) (k : Int) : Int := (w / 256 ^ k.toNat) % 256

/-- Modelled from the spec: `CData` is the byte view of the storage of `Data`
(`main.go` builds it with an unchecked pointer cast): byte `b` is byte `b % 4` of
cell `b / 4`, least significant byte first, and the view spans exactly the block. -/
def readCData (s : State) (b : Int) : Except Stop Int :=
  if 0 ≤ b ∧ b < 4 * romsize then .ok (byteOf (s.Data (b / 4)) (b % 4))
  else .error .indexOutOfRange

/-- Writing `CData[b] = v` replaces one byte of the cell `b / 4`. -/
def writeCData (s : State) (b : Int) (v : Int) : Except Stop State :=
  if 0 ≤ b ∧ b < 4 * romsize then
    let w := s.Data (b / 4)
    let k := (b % 4).toNat
    .ok { s with Data := Function.update s.Data (b / 4)
                  (w - byteOf w (b % 4) * 256 ^ k + u8 v * 256 ^ k) }
  else .error .indexOutOfRange

/-- Reading `inputtext[i]`. -/
def readInput (s : State) (i : Int) : Except Stop Int :=
  if 0 ≤ i ∧ i < s.inputtext.length then .ok (s.inputtext.getD i.toNat 0)
  else .error .indexOutOfRange

/-- LOGICAL returns the TRUE and FALSE flags of a test. -/
def LOGICAL (test : Bool) : Int := if test then TRUE else FALSE

/-- LOWER (x,y) returns a TRUE flag if x<y as unsigned values. -/
def LOWER (x y : Int) : Int := if u32 x < u32 y then TRUE else FALSE

/-- Pop the data stack into `Top`. -/
def pop (s : State) : State :=
  { s with Top := s.Stack s.S, S := s.S - 1 }

/-- Push `Top` on the data stack and load `Top` with `char`. -/
def push (char : Int) (s : State) : State :=
  { s with S := s.S + 1, Stack := Function.update s.Stack (s.S + 1) s.Top, Top := char }

/-- The command `bye` writes the rom image to a file and ends the process. -/
def bye (_ : State) : Except Stop State := .error .exit

/-- Read one line of console input into `inputtext`. -/
def readinput (s : State) : State :=
  match s.stdin with
  | [] => { s with inputtext := [], strCount := 0 }
  | l :: ls => { s with stdin := ls, inputtext := l, strCount := l.length }

/-- Get one character from the console. -/
def getchar (s : State) : Except Stop (Int × State) :=
  if !s.reading then
    let s1 := { readinput s with q := 0 }
    if s1.strCount = 2 then do
      let c ← readInput s1 1
      pure (c, s1)
    else if s1.strCount > 2 then do
      let c ← readInput s1 s1.q
      pure (c, { s1 with reading := true, q := s1.q + 1 })
    else pure (0, s1)
  else
    if s.q < s.strCount - 2 then do
      let c ← readInput s s.q
      pure (c, { s with q := s.q + 1 })
    else do
      let c ← readInput s s.q
      pure (c, { s with reading := false })

/-- qrx ( -- c T|F ): a character and a true flag if one has been received. -/
def qrx (s : State) : Except Stop State := do
  let (c, s1) ← getchar s
  let s2 := push c s1
  if s2.Top ≠ 0 then pure (push TRUE s2) else pure s2

/-- txsto ( c -- ): send a character to the terminal. -/
def txsto (s : State) : State :=
  pop { s with out := s.out ++ [.char (u8 s.Top)] }

/-- The inner interpreter: load `P` with the token at `IP`, set `WP`, advance `IP`. -/
def next (s : State) : Except Stop State := do
  let w ← readData s (s.IP / 4)
  let p := wrap32 w
  pure { s with P := p, WP := wrap32 (p + 4), IP := wrap32 (s.IP + 4) }

/-- dovar ( -- a ). -/
def dovar (s : State) : State := push s.WP s

/-- docon ( -- n ). -/
def docon (s : State) : Except Stop State := do
  let w ← readData s (s.WP / 4)
  pure (push (wrap32 w) s)

/-- dolit ( -- w ): push the next token as a literal. -/
def dolit (s : State) : Except Stop State := do
  let w ← readData s (s.IP / 4)
  let s1 := push (wrap32 w) s
  next { s1 with IP := wrap32 (s1.IP + 4) }

/-- dolist ( -- ): enter a compound command. -/
def dolist (s : State) : Except Stop State :=
  let s1 := { s with R := s.R + 1 }
  let s2 := { s1 with rack := Function.update s1.rack s1.R s1.IP }
  next { s2 with IP := s2.WP }

/-- exitt ( -- ): leave a compound command. -/
def exitt (s : State) : Except Stop State :=
  let s1 := { s with IP := s.rack s.R }
  next { s1 with R := s1.R - 1 }

/-- execu ( a -- ): execute the token whose address is on the data stack. -/
def execu (s : State) : State :=
  let s1 := { s with P := s.Top }
  pop { s1 with WP := wrap32 (s1.P + 4) }

/-- donext ( -- ): terminate a FOR-NEXT loop. -/
def donext (s : State) : Except Stop State :=
  if s.rack s.R ≠ 0 then do
    let s1 := { s with rack := Function.update s.rack s.R (wrap32 (s.rack s.R - 1)) }
    let w ← readData s1 (s1.IP / 4)
    next { s1 with IP := wrap32 w }
  else
    let s1 := { s with IP := wrap32 (s.IP + 4) }
    next { s1 with R := s1.R - 1 }

/-- qbran ( f -- ): branch if the flag is zero. -/
def qbran (s : State) : Except Stop State :=
  if s.Top = 0 then do
    let w ← readData s (s.IP / 4)
    next (pop { s with IP := wrap32 w })
  else
    next (pop { s with IP := wrap32 (s.IP + 4) })

/-- bran ( -- ): branch to the address following bran. -/
def bran (s : State) : Except Stop State := do
  let w ← readData s (s.IP / 4)
  next { s with IP := wrap32 w }

/-- store ( n a -- ). -/
def store (s : State) : Except Stop State := do
  let s1 ← writeData s (s.Top / 4) (u32 (s.Stack s.S))
  pure (pop { s1 with S := s1.S - 1 })

/-- The command `at` ( a -- n ). -/
def atFetch (s : State) : Except Stop State := do
  let w ← readData s (s.Top / 4)
  pure { s with Top := wrap32 w }

/-- cstor ( c b -- ). -/
def cstor (s : State) : Except Stop State := do
  let s1 ← writeCData s s.Top (s.Stack s.S)
  pure (pop { s1 with S := s1.S - 1 })

/-- cat ( b -- n ). -/
def cat (s : State) : Except Stop State := do
  let c ← readCData s s.Top
  pure { s with Top := c }

/-- rfrom: push the top of the return stack on the data stack and drop it. -/
def rfrom (s : State) : State :=
  let s1 := push (s.rack s.R) s
  { s1 with R := s1.R - 1 }

/-- rat: copy the top of the return stack to the data stack. -/
def rat (s : State) : State := push (s.rack s.R) s

/-- tor: move the top of the data stack to the return stack. -/
def tor (s : State) : State :=
  let s1 := { s with R := s.R + 1 }
  pop { s1 with rack := Function.update s1.rack s1.R s1.Top }

/-- drop ( w -- ). -/
def drop (s : State) : State := pop s

/-- dup ( w -- w w ). -/
def dup (s : State) : State :=
  let s1 := { s with S := s.S + 1 }
  { s1 with Stack := Function.update s1.Stack s1.S s1.Top }

/-- swap ( w1 w2 -- w2 w1 ). -/
def swap (s : State) : State :=
  let s1 := { s with WP := s.Top }
  let s2 := { s1 with Top := s1.Stack s1.S }
  { s2 with Stack := Function.update s2.Stack s2.S s2.WP }

/-- over ( w1 w2 -- w1 w2 w1 ). -/
def over (s : State) : State := push (s.Stack s.S) s

/-- zless ( n -- f ). -/
def zless (s : State) : State := { s with Top := LOGICAL (decide (s.Top < 0)) }

/-- andd ( w w -- w ): bitwise AND. -/
def andd (s : State) : State :=
  { s with Top := wrap32 (Int.land s.Top (s.Stack s.S)), S := s.S - 1 }

/-- orr ( w w -- w ): bitwise inclusive OR. -/
def orr (s : State) : State :=
  { s with Top := wrap32 (Int.lor s.Top (s.Stack s.S)), S := s.S - 1 }

/-- xorr ( w w -- w ): bitwise exclusive OR. -/
def xorr (s : State) : State :=
  { s with Top := wrap32 (Int.xor s.Top (s.Stack s.S)), S := s.S - 1 }

/-- uplus ( w w -- w cy ): the sum and the carry flag. -/
def uplus (s : State) : State :=
  let s1 := { s with Stack := Function.update s.Stack s.S (wrap32 (s.Stack s.S + s.Top)) }
  { s1 with Top := LOWER (s1.Stack s1.S) s1.Top }

/-- nop ( -- ). -/
def nop (s : State) : Except Stop State := next s

/-- qdup ( w -- w w | 0 ). -/
def qdup (s : State) : State :=
  if s.Top ≠ 0 then
    let s1 := { s with S := s.S + 1 }
    { s1 with Stack := Function.update s1.Stack s1.S s1.Top }
  else s

/-- rot ( w1 w2 w3 -- w2 w3 w1 ). -/
def rot (s : State) : State :=
  let s1 := { s with WP := s.Stack (s.S - 1) }
  let s2 := { s1 with Stack := Function.update s1.Stack (s1.S - 1) (s1.Stack s1.S) }
  let s3 := { s2 with Stack := Function.update s2.Stack s2.S s2.Top }
  { s3 with Top := s3.WP }

/-- ddrop ( w w -- ). -/
def ddrop (s : State) : State := drop (drop s)

/-- ddup ( w1 w2 -- w1 w2 w1 w2 ). -/
def ddup (s : State) : State := over (over s)

/-- plus ( w w -- sum ). -/
def plus (s : State) : State :=
  { s with Top := wrap32 (s.Top + s.Stack s.S), S := s.S - 1 }

/-- inver ( w -- w ): one's complement. -/
def inver (s : State) : State := { s with Top := wrap32 (-s.Top - 1) }

/-- negat ( n -- -n ): two's complement. -/
def negat (s : State) : State := { s with Top := wrap32 (0 - s.Top) }

/-- dnega ( d -- -d ): two's complement of the top double. -/
def dnega (s : State) : State :=
  plus (rfrom (uplus (push 1 (inver (tor (inver s))))))

/-- subb ( n1 n2 -- n1-n2 ). -/
def subb (s : State) : State :=
  { s with Top := wrap32 (s.Stack s.S - s.Top), S := s.S - 1 }

/-- abss ( n -- n ). -/
def abss (s : State) : State :=
  if s.Top < 0 then { s with Top := wrap32 (-s.Top) } else s

/-- great ( n1 n2 -- t ). -/
def great (s : State) : State :=
  { s with Top := LOGICAL (decide (s.Stack s.S > s.Top)), S := s.S - 1 }

/-- less ( n1 n2 -- t ). -/
def less (s : State) : State :=
  { s with Top := LOGICAL (decide (s.Stack s.S < s.Top)), S := s.S - 1 }

/-- equal ( w w -- t ). -/
def equal (s : State) : State :=
  { s with Top := LOGICAL (decide (s.Stack s.S = s.Top)), S := s.S - 1 }

/-- uless ( u1 u2 -- t ). -/
def uless (s : State) : State :=
  { s with Top := LOGICAL (decide (LOWER (s.Stack s.S) s.Top = TRUE)), S := s.S - 1 }

/-- The 64-bit quotient `n / d` of Go, which panics on a zero divisor. -/
def div64 (n d : Int) : Except Stop Int :=
  if d = 0 then .error .divideByZero else .ok (wrap64 (n.tdiv d))

/-- The 64-bit remainder `n % d` of Go, which panics on a zero divisor. -/
def mod64 (n d : Int) : Except Stop Int :=
  if d = 0 then .error .divideByZero else .ok (wrap64 (n.tmod d))

/-- ummod ( udl udh u -- ur uq ). -/
def ummod (s : State) : Except Stop State := do
  let s1 := { s with d := u32 s.Top }
  let s2 := { s1 with m := u32 (s1.Stack s1.S) }
  let s3 := { s2 with n := u32 (s2.Stack (s2.S - 1)) }
  let s4 := { s3 with n := wrap64 (s3.n + wrap64 (s3.m * 4294967296)) }
  let s5 := pop s4
  let q ← div64 s5.n s5.d
  let s6 := { s5 with Top := wrap32 q }
  let r ← mod64 s6.n s6.d
  pure { s6 with Stack := Function.update s6.Stack s6.S (wrap32 r) }

/-- msmod ( d n -- r q ). -/
def msmod (s : State) : Except Stop State := do
  let s1 := { s with d := wrap32 s.Top }
  let s2 := { s1 with m := wrap32 (s1.Stack s1.S) }
  let s3 := { s2 with n := wrap32 (s2.Stack (s2.S - 1)) }
  let s4 := { s3 with n := wrap64 (s3.n + wrap64 (s3.m * 4294967296)) }
  let s5 := pop s4
  let q ← div64 s5.n s5.d
  let s6 := { s5 with Top := wrap32 q }
  let r ← mod64 s6.n s6.d
  pure { s6 with Stack := Function.update s6.Stack s6.S (wrap32 r) }

/-- slmod ( n1 n2 -- r q ). -/
def slmod (s : State) : State :=
  if s.Top ≠ 0 then
    let s1 := { s with WP := wrap32 ((s.Stack s.S).tdiv s.Top) }
    let s2 := { s1 with Stack := Function.update s1.Stack s1.S
                          (wrap32 ((s1.Stack s1.S).tmod s1.Top)) }
    { s2 with Top := s2.WP }
  else s

/-- mod ( n n -- r ). -/
def mod (s : State) : State :=
  let s1 := if s.Top ≠ 0 then { s with Top := wrap32 ((s.Stack s.S).tmod s.Top) }
            else { s with Top := s.Stack s.S }
  { s1 with S := s1.S - 1 }

/-- slash ( n n -- q ). -/
def slash (s : State) : State :=
  let s1 := if s.Top ≠ 0 then { s with Top := wrap32 ((s.Stack s.S).tdiv s.Top) }
            else
              let t := { s with Top := s.Stack s.S }
              { t with Stack := Function.update t.Stack t.S 0 }
  { s1 with S := s1.S - 1 }

/-- umsta ( u1 u2 -- ud ). -/
def umsta (s : State) : State :=
  let s1 := { s with d := u32 s.Top }
  let s2 := { s1 with m := u32 (s1.Stack s1.S) }
  let s3 := { s2 with m := wrap64 (s2.m * s2.d) }
  let s4 := { s3 with Top := wrap32 (s3.m / 4294967296) }
  { s4 with Stack := Function.update s4.Stack s4.S (wrap32 s4.m) }

/-- star ( n n -- n ). -/
def star (s : State) : State :=
  { s with Top := wrap32 (s.Top * s.Stack s.S), S := s.S - 1 }

/-- mstar ( n1 n2 -- d ). -/
def mstar (s : State) : State :=
  let s1 := { s with d := s.Top }
  let s2 := { s1 with m := s1.Stack s1.S }
  let s3 := { s2 with m := wrap64 (s2.m * s2.d) }
  let s4 := { s3 with Top := wrap32 (s3.m / 4294967296) }
  { s4 with Stack := Function.update s4.Stack s4.S (wrap32 s4.m) }

/-- ssmod ( n1 n2 n3 -- r q ). -/
def ssmod (s : State) : Except Stop State := do
  let s1 := { s with d := s.Top }
  let s2 := { s1 with m := s1.Stack s1.S }
  let s3 := { s2 with n := s2.Stack (s2.S - 1) }
  let s4 := { s3 with n := wrap64 (s3.n + wrap64 (s3.m * 4294967296)) }
  let s5 := pop s4
  let q ← div64 s5.n s5.d
  let s6 := { s5 with Top := wrap32 q }
  let r ← mod64 s6.n s6.d
  pure { s6 with Stack := Function.update s6.Stack s6.S (wrap32 r) }

/-- stasl ( n1 n2 n3 -- q ). -/
def stasl (s : State) : Except Stop State := do
  let s1 := { s with d := s.Top }
  let s2 := { s1 with m := s1.Stack s1.S }
  let s3 := { s2 with n := s2.Stack (s2.S - 1) }
  let s4 := { s3 with n := wrap64 (s3.n + wrap64 (s3.m * 4294967296)) }
  let s5 := pop (pop s4)
  let q ← div64 s5.n s5.d
  pure { s5 with Top := wrap32 q }

/-- pick ( ... +n -- ... w ). -/
def pick (s : State) : State := { s with Top := s.Stack (s.S - toByte s.Top) }

/-- pstor ( n a -- ). -/
def pstor (s : State) : Except Stop State := do
  let w ← readData s (s.Top / 4)
  let s1 ← writeData s (s.Top / 4) (u32 (w + u32 (s.Stack s.S)))
  pure (pop { s1 with S := s1.S - 1 })

/-- dstor ( d a -- ). -/
def dstor (s : State) : Except Stop State := do
  let s1 ← writeData s (s.Top / 4 + 1) (u32 (s.Stack s.S))
  let s2 := { s1 with S := s1.S - 1 }
  let s3 ← writeData s2 (s2.Top / 4) (u32 (s2.Stack s2.S))
  pure (pop { s3 with S := s3.S - 1 })

/-- dat ( a -- d ). -/
def dat (s : State) : Except Stop State := do
  let w ← readData s (s.Top / 4)
  let s1 := push (wrap32 w) s
  let v ← readData s1 (s1.Top / 4 + 1)
  pure { s1 with Top := wrap32 v }

/-- count ( b -- b+1 +n ). -/
def count (s : State) : Except Stop State := do
  let s1 := { s with S := s.S + 1 }
  let s2 := { s1 with Stack := Function.update s1.Stack s1.S (wrap32 (s1.Top + 1)) }
  let c ← readCData s2 s2.Top
  pure { s2 with Top := c }

/-- maxx ( n1 n2 -- n ). -/
def maxx (s : State) : State :=
  if s.Top < s.Stack s.S then pop s else { s with S := s.S - 1 }

/-- minn ( n1 n2 -- n ). -/
def minn (s : State) : State :=
  if s.Top < s.Stack s.S then { s with S := s.S - 1 } else pop s

/-- The type of a primitive. -/
abbrev forth := State → Except Stop State

/-- A primitive that cannot stop the program. -/
def total (f : State → State) : forth := fun s => .ok (f s)

/-- The table of byte codes. -/
def Primitives (code : Int) : Option forth :=
  match code with
  | 0 => some nop
  | 1 => some bye
  | 2 => some qrx
  | 3 => some (total txsto)
  | 4 => some docon
  | 5 => some dolit
  | 6 => some dolist
  | 7 => some exitt
  | 8 => some (total execu)
  | 9 => some donext
  | 10 => some qbran
  | 11 => some bran
  | 12 => some store
  | 13 => some atFetch
  | 14 => some cstor
  | 15 => some cat
  | 16 => some nop
  | 17 => some nop
  | 18 => some (total rfrom)
  | 19 => some (total rat)
  | 20 => some (total tor)
  | 21 => some nop
  | 22 => some nop
  | 23 => some (total drop)
  | 24 => some (total dup)
  | 25 => some (total swap)
  | 26 => some (total over)
  | 27 => some (total zless)
  | 28 => some (total andd)
  | 29 => some (total orr)
  | 30 => some (total xorr)
  | 31 => some (total uplus)
  | 32 => some nop
  | 33 => some (total qdup)
  | 34 => some (total rot)
  | 35 => some (total ddrop)
  | 36 => some (total ddup)
  | 37 => some (total plus)
  | 38 => some (total inver)
  | 39 => some (total negat)
  | 40 => some (total dnega)
  | 41 => some (total subb)
  | 42 => some (total abss)
  | 43 => some (total equal)
  | 44 => some (total uless)
  | 45 => some (total less)
  | 46 => some ummod
  | 47 => some msmod
  | 48 => some (total slmod)
  | 49 => some (total mod)
  | 50 => some (total slash)
  | 51 => some (total umsta)
  | 52 => some (total star)
  | 53 => some (total mstar)
  | 54 => some ssmod
  | 55 => some stasl
  | 56 => some (total pick)
  | 57 => some pstor
  | 58 => some dstor
  | 59 => some dat
  | 60 => some count
  | 61 => some (total dovar)
  | 62 => some (total maxx)
  | 63 => some (total minn)
  | 64 => some (total great)
  | _ => none

/-- Execute one byte code: a primitive of the table, or the illegal-code message. -/
def execute (code : Int) (s : State) : Except Stop State :=
  if code < 65 then
    match Primitives code with
    | some f => f s
    | none => .error .nilCall
  else .ok { s with out := s.out ++ [.illegal code s.P] }

/-- One turn of the loop of `main`: fetch `CData[P]`, advance `P`, execute. -/
def step (s : State) : Except Stop State := do
  let b ← readCData s s.P
  let s1 := { s with Bytecode := b }
  execute s1.Bytecode { s1 with P := wrap32 (s1.P + 1) }

/-- The loop of `main` for `k` turns. -/
def run : Nat → State → Except Stop State
  | 0, s => .ok s
  | k + 1, s => step s >>= run k

/-- The registers as `main` sets them, over a given memory image and console. -/
def boot (image : Int → Int) (console : List (List Int)) : State :=
  { rack := fun _ => 0, Stack := fun _ => 0, d := 0, n := 0, m := 0, R := 0, S := 0,
    Top := 0, P := 0, IP := 0, WP := 4, Data := image, Bytecode := 0, inputtext := [],
    strCount := 0, reading := false, q := 0, stdin := console, out := [.banner] }

/-! ## Concrete machines used as examples -/

/-- A memory image given by its first cells; the other cells hold 0. -/
def imageOf (cells : List Int) : Int → Int :=
  fun i => if 0 ≤ i then cells.getD i.toNat 0 else 0

/-- A machine in a FOR-NEXT loop whose count on the return stack is `count`:
`IP` addresses cell 0, which holds the branch target 8 (cell 2). -/
def loopState (count : Int) : State :=
  { boot (imageOf [8, 111, 222, 333]) [] with rack := fun _ => count }

/-- A machine holding three cells on the data stack: `third` two below `Top`
(slot `S-1`), `second` below `Top` (slot `S`), and `top` in `Top`; cell 26 of its
memory holds 777 and the other cells 0. -/
def stackState (third second top : Int) : State :=
  { boot (fun i => if i = 26 then 777 else 0) [] with
    S := 2, Stack := fun i => if i = 2 then second else if i = 1 then third else 0,
    Top := top }

/-- The machine as `main` starts it, on an image whose first byte code is 200. -/
def illegalState : State := boot (imageOf [200]) []

/-- The pushes `push(v1), ..., push(vk)` in this order. -/
def pushAll : List Int → State → State
  | [], s => s
  | v :: vs, s => pushAll vs (push v s)

/-- The primitive `pop()` executed `k` times. -/
def popN : Nat → State → State
  | 0, s => s
  | k + 1, s => popN k (pop s)

/-- A memory image holding a compound word at address 0: the byte code of
`dolist` in its code field (cell 0) and the token list `dolit 5 dolit 7 plus exitt`
in cells 1..6, where `dolit` is the primitive at address 32 (cell 8), `plus` the
one at address 36 (cell 9, followed by a `nop` byte) and `exitt` the one at
address 40 (cell 10); cell 11 holds the token 999 that the caller executes next. -/
def wordImage : Int → Int := imageOf [6, 32, 5, 32, 7, 36, 40, 0, 5, 37, 7, 999]

/-- The machine about to run the compound word of `wordImage`, called from a
token list whose next token is in cell 11 (`IP = 44`), with 3 in `Top`. -/
def wordState : State := { boot wordImage [] with IP := 44, Top := 3 }

/-! ## C1: donext -/

/-- C1 (counterexample): with a loop count of 1 on the return stack `donext`
branches: `R` is not lowered, the count becomes 0, and the token loaded by the
closing `next` is the one at the branch target (222, in cell 2), not the one in
the cell after the branch-target cell (111, in cell 1). -/
theorem donext_count_one_branches :
    (loopState 1).rack (loopState 1).R = 1 ∧ (loopState 1).IP = 0 ∧
    ∃ s', donext (loopState 1) = .ok s' ∧ s'.R = (loopState 1).R ∧
      s'.R ≠ (loopState 1).R - 1 ∧ s'.rack s'.R = 0 ∧
      s'.P = 222 ∧ s'.P ≠ 111 ∧ s'.IP = 8 + 4 ∧ s'.IP ≠ (0 + 4) + 4 := by
  refine ⟨rfl, rfl, _, rfl, ?_, ?_, ?_, ?_, ?_, ?_, ?_⟩ <;> decide

/-- C1 (as amended): `donext` tests the loop count on top of the return stack
before decrementing it.  When the count is non-zero it is decremented in place
(`R` unchanged) and `IP` becomes the address stored in the cell at `IP`, so the
closing `next` loads the token at the branch target.  When the count is zero it
is popped (`R` one lower, the array unchanged) and `IP` is advanced by 4 before
`next`, so the token loaded is the one after the branch-target cell. -/
theorem donext_tests_count_before_decrement (s : State) :
    (s.rack s.R ≠ 0 →
      (0 ≤ s.IP / 4 ∧ s.IP / 4 < romsize) →
      (0 ≤ wrap32 (s.Data (s.IP / 4)) / 4 ∧ wrap32 (s.Data (s.IP / 4)) / 4 < romsize) →
      donext s = .ok { s with
        rack := Function.update s.rack s.R (wrap32 (s.rack s.R - 1)),
        P := wrap32 (s.Data (wrap32 (s.Data (s.IP / 4)) / 4)),
        WP := wrap32 (wrap32 (s.Data (wrap32 (s.Data (s.IP / 4)) / 4)) + 4),
        IP := wrap32 (wrap32 (s.Data (s.IP / 4)) + 4) }) ∧
    (s.rack s.R = 0 →
      (0 ≤ wrap32 (s.IP + 4) / 4 ∧ wrap32 (s.IP + 4) / 4 < romsize) →
      donext s = .ok { s with
        R := s.R - 1,
        P := wrap32 (s.Data (wrap32 (s.IP + 4) / 4)),
        WP := wrap32 (wrap32 (s.Data (wrap32 (s.IP + 4) / 4)) + 4),
        IP := wrap32 (wrap32 (s.IP + 4) + 4) }) := by
  constructor
  · intro hc hIP hT
    simp [donext, hc, readData, hIP, next, hT, bind, Except.bind, pure, Except.pure]
  · intro hc hIP
    simp [donext, hc, readData, hIP, next, bind, Except.bind, pure, Except.pure]

/-- C1 (witness): both cases of `donext_tests_count_before_decrement` at concrete
machines, with count 1 (branch) and count 0 (fall through). -/
theorem donext_tests_count_before_decrement_witness :
    (∃ s', donext (loopState 1) = .ok s' ∧ s'.R = (loopState 1).R ∧ s'.P = 222) ∧
    (∃ s', donext (loopState 0) = .ok s' ∧ s'.R = (loopState 0).R - 1 ∧ s'.P = 111) :=
  ⟨⟨_, (donext_tests_count_before_decrement (loopState 1)).1
        (by decide) (by decide) (by decide), rfl, by decide⟩,
   ⟨_, (donext_tests_count_before_decrement (loopState 0)).2
        (by decide) (by decide), rfl, by decide⟩⟩

/-! ## C2: illegal byte codes -/

/-- C2: a dispatch step that fetches a byte code `b > 64` calls no primitive: it
only records the fetch (`Bytecode`), advances `P` by exactly one and writes the
illegal-code message; `Top`, `S`, `R`, `IP`, `WP`, both stacks and memory are
unchanged.  Every code in 0..64 has an entry in the table, which `execute` calls. -/
theorem illegal_code_step (s : State) (b : Int)
    (hfetch : readCData s s.P = .ok b) (hb : 64 < b) :
    step s = .ok { s with Bytecode := b, P := s.P + 1,
                          out := s.out ++ [.illegal b (s.P + 1)] } ∧
    (∀ c : Int, 0 ≤ c → c ≤ 64 →
      ∃ f, Primitives c = some f ∧ ∀ t, execute c t = f t) ∧
    (∀ (c : Int) (t : State), 64 < c →
      execute c t = .ok { t with out := t.out ++ [.illegal c t.P] }) := by
  refine ⟨?_, ?_, ?_⟩
  · have hP : 0 ≤ s.P ∧ s.P < 4 * romsize := by
      by_contra h
      simp [readCData, h] at hfetch
    have hw : wrap32 (s.P + 1) = s.P + 1 := by
      simp only [romsize] at hP
      unfold wrap32
      omega
    have hb' : ¬ b < 65 := by omega
    simp [step, hfetch, execute, hb', hw, bind, Except.bind]
  · intro c h0 h64
    have hlt : c < 65 := by omega
    interval_cases c <;> exact ⟨_, rfl, fun _ => rfl⟩
  · intro c t hc
    have hc' : ¬ c < 65 := by omega
    simp [execute, hc']

/-- C2 (witness): the machine booted on an image whose first byte is 200. -/
theorem illegal_code_step_witness :
    step illegalState =
      .ok { illegalState with
            Bytecode := 200, P := illegalState.P + 1,
            out := illegalState.out ++ [.illegal 200 (illegalState.P + 1)] } :=
  (illegal_code_step illegalState 200 rfl (by decide)).1

/-! ## C3: zero divisors -/

/-- C3 (code at the failing input): whatever the rest of the machine, with
`Top = 0` the four double-cell divisions `ummod`, `msmod`, `ssmod` and `stasl`
stop with an integer divide-by-zero panic instead of returning a state. -/
theorem double_divisions_panic_on_zero (s : State) :
    ummod { s with Top := 0 } = .error .divideByZero ∧
    msmod { s with Top := 0 } = .error .divideByZero ∧
    ssmod { s with Top := 0 } = .error .divideByZero ∧
    stasl { s with Top := 0 } = .error .divideByZero := by
  refine ⟨?_, ?_, ?_, ?_⟩ <;>
    simp [ummod, msmod, ssmod, stasl, div64, pop, u32, wrap32, bind, Except.bind]

/-! ## C4: dstor and dat -/

/-- C4 (code at the failing input): `dstor` with stack ( 100 200 8 -- ) writes
100 to cell 2 and 200 to cell 3, but `dat` with `Top = 8` then leaves the address
8 below `Top` (not the low cell 100) and loads `Top` from cell `(100 >> 2) + 1 = 26`
(777 here), not from cell 3 (200). -/
theorem dat_after_dstor_loses_double :
    ∃ s1 s2, dstor (stackState 100 200 8) = .ok s1 ∧ s1.Data 2 = 100 ∧ s1.Data 3 = 200 ∧
      dat { s1 with Top := 8 } = .ok s2 ∧ s2.S = s1.S + 1 ∧
      s2.Stack s2.S = 8 ∧ s2.Top = 777 := by
  refine ⟨_, _, rfl, ?_, ?_, rfl, ?_, ?_, ?_⟩ <;> decide

/-! ## C5: dnega -/

/-- C5 (code at the failing input): on the double 0 (`lo = 0`, `hi = 0`) `dnega`
leaves `lo' = 0` and `hi' = -2`, and on `lo = 0`, `hi = 5` it leaves `hi' = -7`;
on `lo = 1`, `hi = 0` it leaves the negation `(-1, -1)`. -/
theorem dnega_low_zero :
    ((dnega (stackState 9 0 0)).Stack (dnega (stackState 9 0 0)).S = 0 ∧
      (dnega (stackState 9 0 0)).Top = -2) ∧
    ((dnega (stackState 9 0 5)).Stack (dnega (stackState 9 0 5)).S = 0 ∧
      (dnega (stackState 9 0 5)).Top = -7) ∧
    ((dnega (stackState 9 1 0)).Stack (dnega (stackState 9 1 0)).S = -1 ∧
      (dnega (stackState 9 1 0)).Top = -1) := by
  decide

/-! ## C6: ummod -/

/-- C6 (code at the failing input): with `udl = 0`, `udh = 2^31` and
`u = 2^31 + 1` (so `udh < u` as unsigned values) `ummod` leaves `Top = 2` and
`-2` below it, where the unsigned quotient is `2^32 - 2` (the cell `-2`) and the
remainder 2.  On ( 10 0 3 ) it leaves quotient 3 and remainder 1. -/
theorem ummod_high_bit_set :
    (∃ s', ummod (stackState 0 (-2147483648) (-2147483647)) = .ok s' ∧
      s'.Top = 2 ∧ s'.Stack s'.S = -2) ∧
    (∃ s', ummod (stackState 10 0 3) = .ok s' ∧ s'.Top = 3 ∧ s'.Stack s'.S = 1) := by
  refine ⟨⟨_, rfl, ?_, ?_⟩, ⟨_, rfl, ?_, ?_⟩⟩ <;> decide

/-! ## C7: ssmod -/

/-- C7 (code at the failing input): on ( 6 7 5 ) `ssmod` leaves
`Top = 1717986919` and 3 below it: it divides the double `6 + 7 * 2^32` by 5
instead of the product 42, whose quotient is 8 and remainder 2. -/
theorem ssmod_does_not_multiply :
    ∃ s', ssmod (stackState 6 7 5) = .ok s' ∧ s'.S = (stackState 6 7 5).S - 1 ∧
      s'.Top = 1717986919 ∧ s'.Stack s'.S = 3 := by
  refine ⟨_, rfl, ?_, ?_, ?_⟩ <;> decide

/-! ## C8: msmod -/

/-- C8 (code at the failing input): on the double `-2^32 + 1` (low cell 1, high
cell -1) and divisor 2, `msmod` leaves the truncated quotient `-2147483647` and
remainder `-1`, not the floored `-2147483648` and `1`; on the double `2^32 - 1`
(low cell -1, high cell 0) and divisor 3 it leaves quotient 0 and remainder -1,
not `1431655765` and 0, because the low cell is sign-extended. -/
theorem msmod_truncates_and_sign_extends :
    (∃ s', msmod (stackState 1 (-1) 2) = .ok s' ∧
      s'.Top = -2147483647 ∧ s'.Stack s'.S = -1) ∧
    (∃ s', msmod (stackState (-1) 0 3) = .ok s' ∧ s'.Top = 0 ∧ s'.Stack s'.S = -1) := by
  refine ⟨⟨_, rfl, ?_, ?_⟩, ⟨_, rfl, ?_, ?_⟩⟩ <;> decide

/-! ## C9: push and pop -/

theorem popN_S (k : Nat) (s : State) : (popN k s).S = s.S - (k : Fin 256) := by
  induction k generalizing s with
  | zero => simp [popN]
  | succ k ih =>
    simp only [popN, ih, pop, Nat.cast_succ]
    ring

theorem popN_Stack (k : Nat) (s : State) : (popN k s).Stack = s.Stack := by
  induction k generalizing s with
  | zero => rfl
  | succ k ih => simp only [popN, ih, pop]

theorem popN_Top (k : Nat) (s : State) :
    (popN (k + 1) s).Top = s.Stack (s.S - (k : Fin 256)) := by
  induction k generalizing s with
  | zero => simp [popN, pop]
  | succ k ih =>
    rw [popN, ih]
    simp only [pop, Nat.cast_succ]
    congr 1
    ring

theorem pushAll_S (vs : List Int) (s : State) :
    (pushAll vs s).S = s.S + (vs.length : Fin 256) := by
  induction vs generalizing s with
  | nil => simp [pushAll]
  | cons v vs ih =>
    simp only [pushAll, ih, push, List.length_cons, Nat.cast_succ]
    ring

theorem pushAll_Stack_other (vs : List Int) (s : State) (j : Fin 256)
    (hj : ∀ i : Nat, i < vs.length → j ≠ s.S + 1 + (i : Fin 256)) :
    (pushAll vs s).Stack j = s.Stack j := by
  induction vs generalizing s with
  | nil => rfl
  | cons v vs ih =>
    rw [pushAll, ih]
    · have h0 := hj 0 (by simp)
      simp only [Nat.cast_zero, add_zero] at h0
      simp [push, Function.update_noteq h0]
    · intro i hi
      have h1 := hj (i + 1) (by simpa using hi)
      have e : (push v s).S + 1 + (i : Fin 256) = s.S + 1 + ((i + 1 : Nat) : Fin 256) := by
        simp only [push, Nat.cast_succ]
        ring
      rw [e]
      exact h1

theorem fin256_succ_ne (x : Fin 256) (i : Nat) (h : i < 255) :
    x + 1 ≠ x + 1 + 1 + (i : Fin 256) := by
  intro h0
  have h1 : ((i : Fin 256) + 1) = 0 := by
    have e : x + 1 + ((i : Fin 256) + 1) = x + 1 + 1 + (i : Fin 256) := by ring
    have : x + 1 + ((i : Fin 256) + 1) = x + 1 + 0 := by rw [add_zero, e, ← h0]
    exact add_left_cancel this
  have := congrArg Fin.val h1
  simp [Fin.val_add] at this
  omega

set_option maxRecDepth 100000 in
/-- C9 (counterexample): after 257 pushes of the value 1 on a machine whose `Top`
is 0, 257 pops leave `Top = 1`: the 257th push has overwritten the slot that held
the first `Top`.  The stack pointer is back at its first value. -/
theorem push_pop_257_loses_Top :
    (List.replicate 257 (1 : Int)).length = 257 ∧ (boot (imageOf []) []).Top = 0 ∧
    (popN 257 (pushAll (List.replicate 257 1) (boot (imageOf []) []))).Top = 1 ∧
    (popN 257 (pushAll (List.replicate 257 1) (boot (imageOf []) []))).S =
      (boot (imageOf []) []).S := by
  decide

/-- C9 (as amended): for every machine state and every list of at most 256
values, pushing the values in order and then popping as many times leaves `Top`
and the stack pointer `S` equal to their values before the first push. -/
theorem push_pop_round_trip (s : State) (vs : List Int) (h : vs.length ≤ 256) :
    (popN vs.length (pushAll vs s)).Top = s.Top ∧
    (popN vs.length (pushAll vs s)).S = s.S := by
  cases vs with
  | nil => exact ⟨rfl, rfl⟩
  | cons v vs =>
    simp only [List.length_cons] at h ⊢
    constructor
    · rw [popN_Top, pushAll, pushAll_S]
      have hS : (push v s).S + (vs.length : Fin 256) - (vs.length : Fin 256) = s.S + 1 := by
        simp [push]
      rw [hS, pushAll_Stack_other]
      · simp [push]
      · intro i hi
        exact fin256_succ_ne s.S i (by omega)
    · rw [popN_S, pushAll, pushAll_S]
      simp only [push, Nat.cast_succ]
      ring

/-- C9 (witness): three values pushed on a machine with three cells and popped. -/
theorem push_pop_round_trip_witness :
    (popN [10, 20, 30].length (pushAll [10, 20, 30] (stackState 1 2 3))).Top =
      (stackState 1 2 3).Top ∧
    (popN [10, 20, 30].length (pushAll [10, 20, 30] (stackState 1 2 3))).S =
      (stackState 1 2 3).S :=
  push_pop_round_trip (stackState 1 2 3) [10, 20, 30] (by decide)

/-! ## C10: threaded execution of a compound word -/

theorem readCData_range {s : State} {b v : Int} (h : readCData s b = .ok v) :
    0 ≤ b ∧ b < 16384 := by
  by_contra hc
  simp [readCData, romsize, hc] at h

theorem readData_range {s : State} {i v : Int} (h : readData s i = .ok v) :
    0 ≤ i ∧ i < 4096 := by
  by_contra hc
  simp [readData, romsize, hc] at h

theorem readData_val {s : State} {i v : Int} (h : readData s i = .ok v) : s.Data i = v := by
  have hr := readData_range h
  simpa [readData, romsize, hr] using h

theorem wrap32_small {x : Int} (h : -2147483648 ≤ x ∧ x < 2147483648) : wrap32 x = x := by
  unfold wrap32; omega

theorem wrap32_add (x y : Int) : wrap32 (wrap32 x + wrap32 y) = wrap32 (x + y) := by
  unfold wrap32; omega

theorem step_fetch {s : State} {b : Int} (hf : readCData s s.P = .ok b) :
    step s = execute b { s with Bytecode := b, P := wrap32 (s.P + 1) } := by
  simp [step, hf, bind, Except.bind]

theorem next_ok {s : State} {v : Int} (hn : readData s (s.IP / 4) = .ok v) :
    next s = .ok { s with P := wrap32 v, WP := wrap32 (wrap32 v + 4), IP := wrap32 (s.IP + 4) } := by
  simp [next, hn, bind, Except.bind, pure, Except.pure]

theorem step_dolist {s : State} {v : Int} (hf : readCData s s.P = .ok 6)
    (hn : readData s (s.WP / 4) = .ok v) :
    step s = .ok { s with
      Bytecode := 6, R := s.R + 1, rack := Function.update s.rack (s.R + 1) s.IP,
      P := wrap32 v, WP := wrap32 (wrap32 v + 4), IP := wrap32 (s.WP + 4) } := by
  rw [step_fetch hf]
  show dolist _ = _
  unfold dolist
  exact next_ok hn

theorem step_dolit {s : State} {x v : Int} (hf : readCData s s.P = .ok 5)
    (hl : readData s (s.IP / 4) = .ok x)
    (hn : readData s (wrap32 (s.IP + 4) / 4) = .ok v) :
    step s = .ok { s with
      Bytecode := 5, S := s.S + 1, Stack := Function.update s.Stack (s.S + 1) s.Top,
      Top := wrap32 x,
      P := wrap32 v, WP := wrap32 (wrap32 v + 4), IP := wrap32 (wrap32 (s.IP + 4) + 4) } := by
  rw [step_fetch hf]
  show dolit _ = _
  unfold dolit
  have hl' : readData { s with Bytecode := 5, P := wrap32 (s.P + 1) }
      ({ s with Bytecode := 5, P := wrap32 (s.P + 1) }.IP / 4) = .ok x := hl
  rw [hl']
  exact next_ok hn

theorem step_plus {s : State} (hf : readCData s s.P = .ok 37) :
    step s = .ok { s with
      Bytecode := 37, P := wrap32 (s.P + 1),
      Top := wrap32 (s.Top + s.Stack s.S), S := s.S - 1 } := by
  rw [step_fetch hf]
  rfl

theorem step_nop {s : State} {v : Int} (hf : readCData s s.P = .ok 0)
    (hn : readData s (s.IP / 4) = .ok v) :
    step s = .ok { s with
      Bytecode := 0, P := wrap32 v, WP := wrap32 (wrap32 v + 4), IP := wrap32 (s.IP + 4) } := by
  rw [step_fetch hf]
  show next _ = _
  exact next_ok hn

theorem step_exitt {s : State} {v : Int} (hf : readCData s s.P = .ok 7)
    (hn : readData s (s.rack s.R / 4) = .ok v) :
    step s = .ok { s with
      Bytecode := 7, R := s.R - 1,
      P := wrap32 v, WP := wrap32 (wrap32 v + 4), IP := wrap32 (s.rack s.R + 4) } := by
  rw [step_fetch hf]
  show exitt _ = _
  unfold exitt
  exact next_ok hn

theorem readCData_congr {s t : State} (h : t.Data = s.Data) (b : Int) :
    readCData t b = readCData s b := by
  simp [readCData, h]

theorem readData_congr {s t : State} (h : t.Data = s.Data) (i : Int) :
    readData t i = readData s i := by
  simp [readData, h]

theorem run_succ {s s1 : State} (h : step s = .ok s1) (k : Nat) :
    run (k + 1) s = run k s1 := by
  simp [run, h, bind, Except.bind]

/-- C10: let a compound word have the byte code of `dolist` in its code field
(address `4 * w`) and the token list `[cd, x, cd, y, cp, ce]` in its parameter
field, where the byte at `cd` is `dolit`, the bytes at `cp` and `cp + 1` are
`plus` and `nop`, and the byte at `ce` is `exitt`, and let the caller's `IP`
address a cell of memory.  Running the dispatch loop from `P = 4 * w`,
`WP = P + 4` executes six byte codes, the sixth being `exitt`; when `exitt` is
fetched the top of the return stack holds the caller's `IP` that `dolist` saved,
and `exitt` is `next` run with that `IP` reloaded and `R` lowered.
Afterwards `Top = x + y` (wrapping), the previous `Top` is directly below it,
`R` has its starting value, memory is unchanged, and `exitt` has reloaded the
saved `IP` and threaded to the caller's next token: `P` is the token in the cell
at the caller's `IP`, and `IP` is advanced past it. -/
theorem compound_word_runs (s : State) (w cd cp ce x y : Int)
    (hP : s.P = 4 * w) (hWP : s.WP = s.P + 4)
    (hcode : readCData s (4 * w) = .ok 6)
    (h1 : readData s (w + 1) = .ok cd) (h2 : readData s (w + 2) = .ok x)
    (h3 : readData s (w + 3) = .ok cd) (h4 : readData s (w + 4) = .ok y)
    (h5 : readData s (w + 5) = .ok cp) (h6 : readData s (w + 6) = .ok ce)
    (hcd : readCData s cd = .ok 5)
    (hcp : readCData s cp = .ok 37) (hcp1 : readCData s (cp + 1) = .ok 0)
    (hce : readCData s ce = .ok 7)
    (hIP : 0 ≤ s.IP / 4 ∧ s.IP / 4 < romsize) :
    ∃ s5 s', run 5 s = .ok s5 ∧ s5.P = ce ∧ s5.rack s5.R = s.IP ∧
      step s5 = next { s5 with
        Bytecode := 7, P := wrap32 (s5.P + 1), IP := s.IP, R := s5.R - 1 } ∧
      step s5 = .ok s' ∧ run 6 s = .ok s' ∧ s'.Bytecode = 7 ∧
      s'.Top = wrap32 (x + y) ∧ s'.S = s.S + 1 ∧ s'.Stack s'.S = s.Top ∧
      s'.R = s.R ∧ s'.P = wrap32 (s.Data (s.IP / 4)) ∧ s'.IP = wrap32 (s.IP + 4) ∧
      s'.Data = s.Data := by
  have rw6 := readCData_range hcode
  have rcd := readCData_range hcd
  have rcp := readCData_range hcp
  have rce := readCData_range hce
  have wcd : wrap32 cd = cd := wrap32_small (by omega)
  have wcp : wrap32 cp = cp := wrap32_small (by omega)
  have wce : wrap32 ce = ce := wrap32_small (by omega)
  have hcaller : readData s (s.IP / 4) = .ok (s.Data (s.IP / 4)) := by
    simp [readData, hIP]
  -- step 1: dolist saves IP and enters the token list
  obtain ⟨s1, e1, p1, i1, m1, t1, sp1, st1, r1, rk1⟩ : ∃ s1, step s = .ok s1 ∧
      s1.P = cd ∧ s1.IP = 4 * w + 8 ∧ s1.Data = s.Data ∧ s1.Top = s.Top ∧ s1.S = s.S ∧
      s1.Stack = s.Stack ∧ s1.R = s.R + 1 ∧ s1.rack (s.R + 1) = s.IP := by
    refine ⟨_, step_dolist (s := s) (v := cd) (by rw [hP]; exact hcode)
      (by rw [hWP, hP, show (4 * w + 4) / 4 = w + 1 by omega]; exact h1), ?_⟩
    refine ⟨wcd, ?_, rfl, rfl, rfl, rfl, rfl, by simp⟩
    show wrap32 (s.WP + 4) = _
    rw [hWP, hP]; unfold wrap32; omega
  -- step 2: dolit pushes x
  obtain ⟨s2, e2, p2, i2, m2, t2, sp2, st2, r2, rk2⟩ : ∃ s2, step s1 = .ok s2 ∧
      s2.P = cd ∧ s2.IP = 4 * w + 16 ∧ s2.Data = s.Data ∧ s2.Top = wrap32 x ∧
      s2.S = s.S + 1 ∧ s2.Stack (s.S + 1) = s.Top ∧ s2.R = s.R + 1 ∧
      s2.rack (s.R + 1) = s.IP := by
    refine ⟨_, step_dolit (s := s1) (x := x) (v := cd)
      (by rw [p1, readCData_congr m1]; exact hcd)
      (by rw [i1, readData_congr m1, show (4 * w + 8) / 4 = w + 2 by omega]; exact h2)
      (by rw [i1, readData_congr m1,
            show wrap32 (4 * w + 8 + 4) / 4 = w + 3 by unfold wrap32; omega]; exact h3), ?_⟩
    refine ⟨wcd, ?_, m1, rfl, by simp [sp1], ?_, r1, rk1⟩
    · show wrap32 (wrap32 (s1.IP + 4) + 4) = _
      rw [i1]; unfold wrap32; omega
    · show Function.update s1.Stack (s1.S + 1) s1.Top (s.S + 1) = s.Top
      rw [sp1, Function.update_same, t1]
  -- step 3: dolit pushes y
  obtain ⟨s3, e3, p3, i3, m3, t3, sp3, st3, st3', r3, rk3⟩ : ∃ s3, step s2 = .ok s3 ∧
      s3.P = cp ∧ s3.IP = 4 * w + 24 ∧ s3.Data = s.Data ∧ s3.Top = wrap32 y ∧
      s3.S = s.S + 1 + 1 ∧ s3.Stack (s.S + 1) = s.Top ∧ s3.Stack (s.S + 1 + 1) = wrap32 x ∧
      s3.R = s.R + 1 ∧ s3.rack (s.R + 1) = s.IP := by
    refine ⟨_, step_dolit (s := s2) (x := y) (v := cp)
      (by rw [p2, readCData_congr m2]; exact hcd)
      (by rw [i2, readData_congr m2, show (4 * w + 16) / 4 = w + 4 by omega]; exact h4)
      (by rw [i2, readData_congr m2,
            show wrap32 (4 * w + 16 + 4) / 4 = w + 5 by unfold wrap32; omega]; exact h5), ?_⟩
    refine ⟨wcp, ?_, m2, rfl, by simp [sp2], ?_, ?_, r2, rk2⟩
    · show wrap32 (wrap32 (s2.IP + 4) + 4) = _
      rw [i2]; unfold wrap32; omega
    · show Function.update s2.Stack (s2.S + 1) s2.Top (s.S + 1) = s.Top
      rw [sp2, Function.update_noteq (by simp), st2]
    · show Function.update s2.Stack (s2.S + 1) s2.Top (s.S + 1 + 1) = wrap32 x
      rw [sp2, Function.update_same, t2]
  -- step 4: plus adds, and leaves P on the next byte of its code field
  obtain ⟨s4, e4, p4, i4, m4, t4, sp4, st4, r4, rk4⟩ : ∃ s4, step s3 = .ok s4 ∧
      s4.P = cp + 1 ∧ s4.IP = 4 * w + 24 ∧ s4.Data = s.Data ∧ s4.Top = wrap32 (x + y) ∧
      s4.S = s.S + 1 ∧ s4.Stack (s.S + 1) = s.Top ∧ s4.R = s.R + 1 ∧
      s4.rack (s.R + 1) = s.IP := by
    refine ⟨_, step_plus (s := s3) (by rw [p3, readCData_congr m3]; exact hcp), ?_⟩
    refine ⟨?_, i3, m3, ?_, by simp [sp3], st3, r3, rk3⟩
    · show wrap32 (s3.P + 1) = _
      rw [p3]; exact wrap32_small (by omega)
    · show wrap32 (s3.Top + s3.Stack s3.S) = _
      rw [t3, sp3, st3', add_comm, wrap32_add]
  -- step 5: nop threads to the next token
  obtain ⟨s5, e5, p5, i5, m5, t5, sp5, st5, r5, rk5⟩ : ∃ s5, step s4 = .ok s5 ∧
      s5.P = ce ∧ s5.IP = 4 * w + 28 ∧ s5.Data = s.Data ∧ s5.Top = wrap32 (x + y) ∧
      s5.S = s.S + 1 ∧ s5.Stack (s.S + 1) = s.Top ∧ s5.R = s.R + 1 ∧
      s5.rack (s.R + 1) = s.IP := by
    refine ⟨_, step_nop (s := s4) (v := ce) (by rw [p4, readCData_congr m4]; exact hcp1)
      (by rw [i4, readData_congr m4, show (4 * w + 24) / 4 = w + 6 by omega]; exact h6), ?_⟩
    refine ⟨wce, ?_, m4, t4, sp4, st4, r4, rk4⟩
    show wrap32 (s4.IP + 4) = _
    rw [i4]; unfold wrap32; omega
  -- step 6: exitt restores the caller's IP and threads to the caller's next token
  have hr5 : s5.rack s5.R = s.IP := by rw [r5]; exact rk5
  have e6 := step_exitt (s := s5) (v := s.Data (s.IP / 4))
    (by rw [p5, readCData_congr m5]; exact hce)
    (by rw [hr5, readData_congr m5]; exact hcaller)
  have hf5 : readCData s5 s5.P = .ok 7 := by rw [p5, readCData_congr m5]; exact hce
  refine ⟨s5, _, ?_, p5, hr5, ?_, e6, ?_, rfl, t5, sp5, ?_, ?_, rfl, ?_, m5⟩
  · rw [run_succ e1, run_succ e2, run_succ e3, run_succ e4, run_succ e5]; rfl
  · rw [step_fetch hf5]
    show next { s5 with
      Bytecode := 7, P := wrap32 (s5.P + 1), IP := s5.rack s5.R, R := s5.R - 1 } = _
    rw [hr5]
  · rw [run_succ e1, run_succ e2, run_succ e3, run_succ e4, run_succ e5, run_succ e6]; rfl
  · show s5.Stack s5.S = s.Top
    rw [sp5]; exact st5
  · show s5.R - 1 = s.R
    rw [r5]; simp
  · show wrap32 (s5.rack s5.R + 4) = _
    rw [hr5]

/-- C10 (witness): the word `dolit 5 dolit 7 plus exitt` of `wordImage` leaves
`Top = 12` above the previous `Top = 3` and continues with the caller's token 999. -/
theorem compound_word_runs_witness :
    ∃ s', run 6 wordState = .ok s' ∧ s'.Top = 12 ∧ s'.Stack s'.S = 3 ∧
      s'.R = wordState.R ∧ s'.P = 999 ∧ s'.IP = 48 := by
  obtain ⟨s5, s', _, _, _, _, _, hrun, _, htop, _, hst, hr, hp, hip, _⟩ :=
    compound_word_runs wordState 0 32 36 40 5 7 rfl rfl rfl rfl rfl rfl rfl rfl rfl
      rfl rfl rfl rfl (by decide)
  exact ⟨s', hrun, htop, hst, hr, hp, hip⟩

/-! ## C11: single-cell division and multiplication -/

theorem wrap32_modEq (x : Int) : wrap32 x ≡ x [ZMOD 4294967296] := by
  unfold wrap32 Int.ModEq; omega

theorem wrap32_congr {x y : Int} (h : x ≡ y [ZMOD 4294967296]) : wrap32 x = wrap32 y := by
  unfold Int.ModEq at h; unfold wrap32; omega

theorem neg_tmod_eq (a b : Int) : (-a).tmod b = -(a.tmod b) := by
  rw [Int.tmod_def, Int.tmod_def, Int.neg_tdiv]; ring

theorem tmod_bounds (a b : Int) (hb : b ≠ 0) :
    (0 ≤ a → 0 ≤ a.tmod b ∧ a.tmod b < |b|) ∧ (a ≤ 0 → -|b| < a.tmod b ∧ a.tmod b ≤ 0) := by
  have pos : ∀ x : Int, 0 ≤ x → 0 ≤ x.tmod b ∧ x.tmod b < |b| := by
    intro x hx
    refine ⟨Int.tmod_nonneg b hx, ?_⟩
    rcases lt_or_gt_of_ne hb with hneg | hpos
    · have h1 : x.tmod b = x.tmod (-b) := (Int.tmod_neg x b).symm
      have h2 := Int.tmod_lt_of_pos x (show 0 < -b by omega)
      rw [abs_of_neg hneg]; omega
    · have h2 := Int.tmod_lt_of_pos x hpos
      rw [abs_of_pos hpos]; exact h2
  refine ⟨pos a, fun ha => ?_⟩
  have h := pos (-a) (by omega)
  rw [neg_tmod_eq] at h
  omega

theorem tdiv_range (a b : Int) (ha : -2147483648 ≤ a ∧ a < 2147483648) (hb0 : b ≠ 0)
    (hex : ¬ (a = -2147483648 ∧ b = -1)) :
    -2147483648 ≤ a.tdiv b ∧ a.tdiv b < 2147483648 := by
  have hn : (a.tdiv b).natAbs = a.natAbs / b.natAbs := Int.natAbs_tdiv a b
  have hle : a.natAbs / b.natAbs ≤ a.natAbs := Nat.div_le_self _ _
  constructor
  · omega
  · by_contra hq
    by_cases hb2 : 2 ≤ b.natAbs
    · have h2 : a.natAbs / b.natAbs ≤ a.natAbs / 2 :=
        Nat.div_le_div_left hb2 (by norm_num)
      omega
    · have hb1 : b = 1 ∨ b = -1 := by omega
      rcases hb1 with rfl | rfl
      · rw [Int.tdiv_one] at hq; omega
      · rw [Int.tdiv_neg, Int.tdiv_one] at hq
        exact hex ⟨by omega, rfl⟩

set_option maxRecDepth 10000 in
/-- C11 (counterexample): on ( INT32_MIN -1 ) `slash` leaves `Top = INT32_MIN`,
which is not the quotient truncated toward zero, `2^31`. -/
theorem slash_min_by_minus_one :
    (stackState 0 (-2147483648) (-1)).Stack (stackState 0 (-2147483648) (-1)).S = -2147483648 ∧
    (stackState 0 (-2147483648) (-1)).Top = -1 ∧
    (slash (stackState 0 (-2147483648) (-1))).Top = -2147483648 ∧
    Int.tdiv (-2147483648) (-1) = 2147483648 ∧
    (slash (stackState 0 (-2147483648) (-1))).Top ≠ Int.tdiv (-2147483648) (-1) := by
  decide

/-- C11 (as amended): for all signed 32-bit `a = Stack[S]` and `b = Top` with
`b ≠ 0`, let `q` be the `Top` left by `slash` and `r` the `Top` left by `mod`
(each with `S` one lower).  Then `q * b + r = a` in wrapping 32-bit arithmetic,
also when computed by `star` then `plus`; `q` is the quotient truncated toward
zero wrapped to 32 bits, and is exactly the truncated quotient unless
`a = INT32_MIN` and `b = -1`; `r` is the truncated remainder, zero or of the sign
of `a`, with `|r| < |b|`; and `slmod` leaves the same `r` below the same `q`. -/
theorem division_consistency (s : State)
    (ha : -2147483648 ≤ s.Stack s.S ∧ s.Stack s.S < 2147483648)
    (hb : -2147483648 ≤ s.Top ∧ s.Top < 2147483648) (hb0 : s.Top ≠ 0) :
    ((slash s).S = s.S - 1 ∧ (mod s).S = s.S - 1) ∧
    wrap32 (wrap32 ((slash s).Top * s.Top) + (mod s).Top) = s.Stack s.S ∧
    (plus (push (mod s).Top (star (push s.Top { s with Top := (slash s).Top })))).Top =
      s.Stack s.S ∧
    (slash s).Top = wrap32 ((s.Stack s.S).tdiv s.Top) ∧
    (¬ (s.Stack s.S = -2147483648 ∧ s.Top = -1) →
      (slash s).Top = (s.Stack s.S).tdiv s.Top) ∧
    (mod s).Top = (s.Stack s.S).tmod s.Top ∧
    ((mod s).Top = 0 ∨ (0 < (mod s).Top ∧ 0 < s.Stack s.S) ∨
      ((mod s).Top < 0 ∧ s.Stack s.S < 0)) ∧
    |(mod s).Top| < |s.Top| ∧
    ((slmod s).S = s.S ∧ (slmod s).Top = (slash s).Top ∧
      (slmod s).Stack (slmod s).S = (mod s).Top) := by
  obtain ⟨hpos, hneg⟩ := tmod_bounds (s.Stack s.S) s.Top hb0
  have habs : |s.Top| ≤ 2147483648 := by
    rcases abs_cases s.Top with ⟨h1, _⟩ | ⟨h1, _⟩ <;> omega
  have hr : -2147483648 ≤ (s.Stack s.S).tmod s.Top ∧ (s.Stack s.S).tmod s.Top < 2147483648 := by
    rcases le_total 0 (s.Stack s.S) with h | h
    · have := hpos h; omega
    · have := hneg h; omega
  have hq : (slash s).Top = wrap32 ((s.Stack s.S).tdiv s.Top) := by simp [slash, hb0]
  have hm : (mod s).Top = (s.Stack s.S).tmod s.Top := by
    simp [mod, hb0, wrap32_small hr]
  have hrec : wrap32 (wrap32 ((slash s).Top * s.Top) + (mod s).Top) = s.Stack s.S := by
    rw [hq, hm]
    have e : wrap32 (wrap32 ((s.Stack s.S).tdiv s.Top) * s.Top) + (s.Stack s.S).tmod s.Top
        ≡ s.Stack s.S [ZMOD 4294967296] := by
      have h1 := ((wrap32_modEq ((s.Stack s.S).tdiv s.Top)).mul_right s.Top)
      have h2 := (wrap32_modEq (wrap32 ((s.Stack s.S).tdiv s.Top) * s.Top)).trans h1
      have h3 := h2.add_right ((s.Stack s.S).tmod s.Top)
      rw [Int.tdiv_add_tmod' (s.Stack s.S) s.Top] at h3
      exact h3
    rw [wrap32_congr e]
    exact wrap32_small ha
  refine ⟨⟨by simp [slash, hb0], by simp [mod, hb0]⟩, hrec, ?_, hq, ?_, hm, ?_, ?_, ?_⟩
  · have : (plus (push (mod s).Top (star (push s.Top { s with Top := (slash s).Top })))).Top
        = wrap32 ((mod s).Top + wrap32 (s.Top * (slash s).Top)) := by
      simp [plus, push, star]
    rw [this, add_comm, mul_comm]
    exact hrec
  · intro hex
    rw [hq]
    exact wrap32_small (tdiv_range _ _ ha hb0 hex)
  · rw [hm]
    rcases lt_trichotomy 0 (s.Stack s.S) with h | h | h
    · have := hpos (le_of_lt h); omega
    · rw [← h]; left; simp
    · have := hneg (le_of_lt h); omega
  · rw [hm]
    rcases le_total 0 (s.Stack s.S) with h | h
    · have := hpos h; rw [abs_of_nonneg this.1]; exact this.2
    · have := hneg h; rw [abs_of_nonpos this.2]; omega
  · refine ⟨?_, ?_, ?_⟩
    · simp [slmod, hb0]
    · rw [hq]; simp [slmod, hb0]
    · rw [hm]; simp [slmod, hb0, wrap32_small hr]

/-- C11 (witness): `-7` divided by `2` gives quotient `-3` and remainder `-1`. -/
theorem division_consistency_witness :
    (slash (stackState 0 (-7) 2)).Top = Int.tdiv (-7) 2 ∧
    (mod (stackState 0 (-7) 2)).Top = Int.tmod (-7) 2 ∧
    wrap32 (wrap32 ((slash (stackState 0 (-7) 2)).Top * 2) +
      (mod (stackState 0 (-7) 2)).Top) = -7 :=
  have h := division_consistency (stackState 0 (-7) 2) (by decide) (by decide) (by decide)
  ⟨h.2.2.2.2.1 (by decide), h.2.2.2.2.2.1, h.2.1⟩

/-! ## C12: zero divisors of the single-cell divisions -/

/-- C12: with `Top = 0` and dividend `a = Stack[S]`, `mod` leaves `Top = a` with
`S` one lower and the stack array unchanged; `slash` leaves `Top = a` with `S`
one lower, having written 0 into the slot at the old `S`; and `slmod` leaves the
whole machine unchanged. -/
theorem zero_divisor_policy (s : State) (h : s.Top = 0) :
    ((mod s).Top = s.Stack s.S ∧ (mod s).S = s.S - 1 ∧ (mod s).Stack = s.Stack) ∧
    ((slash s).Top = s.Stack s.S ∧ (slash s).S = s.S - 1 ∧
      (slash s).Stack = Function.update s.Stack s.S 0) ∧
    slmod s = s := by
  refine ⟨⟨?_, ?_, ?_⟩, ⟨?_, ?_, ?_⟩, ?_⟩ <;> simp [mod, slash, slmod, h]

/-- C12 (witness): the dividend 42 with a zero divisor. -/
theorem zero_divisor_policy_witness :
    (mod (stackState 0 42 0)).Top = 42 ∧ (slash (stackState 0 42 0)).Top = 42 ∧
    slmod (stackState 0 42 0) = stackState 0 42 0 :=
  have h := zero_divisor_policy (stackState 0 42 0) rfl
  ⟨h.1.1, h.2.1.1, h.2.2⟩

/-! ## C13: mstar -/

theorem mul_bounds_signed {a b : Int} (ha : -2147483648 ≤ a ∧ a < 2147483648)
    (hb : -2147483648 ≤ b ∧ b < 2147483648) :
    -4611686018427387904 ≤ a * b ∧ a * b ≤ 4611686018427387904 := by
  constructor <;> nlinarith [ha.1, ha.2, hb.1, hb.2]

theorem mul_bounds_unsigned {a b : Int} (ha : 0 ≤ a ∧ a < 4294967296)
    (hb : 0 ≤ b ∧ b < 4294967296) :
    0 ≤ a * b ∧ a * b ≤ 18446744065119617025 := by
  constructor
  · exact Int.mul_nonneg ha.1 hb.1
  · nlinarith [ha.1, ha.2, hb.1, hb.2]

theorem u32_range (x : Int) : 0 ≤ u32 x ∧ u32 x < 4294967296 := by
  unfold u32; omega

/-- C13: for all signed 32-bit `n1 = Stack[S]` and `n2 = Top`, `mstar` leaves `S`
unchanged and the double it leaves, high cell in `Top` and low cell (read as an
unsigned value) below, is the exact product: `2^32 * Top + u32 Stack[S] = n1 * n2`. -/
theorem mstar_exact (s : State)
    (h1 : -2147483648 ≤ s.Stack s.S ∧ s.Stack s.S < 2147483648)
    (h2 : -2147483648 ≤ s.Top ∧ s.Top < 2147483648) :
    (mstar s).S = s.S ∧
    4294967296 * (mstar s).Top + u32 ((mstar s).Stack (mstar s).S) = s.Stack s.S * s.Top := by
  refine ⟨rfl, ?_⟩
  have hb := mul_bounds_signed h1 h2
  have hT : (mstar s).Top = wrap32 (wrap64 (s.Stack s.S * s.Top) / 4294967296) := by
    simp [mstar]
  have hS : (mstar s).Stack (mstar s).S = wrap32 (wrap64 (s.Stack s.S * s.Top)) := by
    simp [mstar]
  rw [hT, hS]
  generalize s.Stack s.S * s.Top = p at hb ⊢
  simp only [u32, wrap32, wrap64]
  omega

/-- C13 (witness): `1000 * 1000` is the double with high cell 0 and low cell
1000000. -/
theorem mstar_exact_witness :
    (mstar (stackState 0 1000 1000)).Top = 0 ∧
    (mstar (stackState 0 1000 1000)).Stack (mstar (stackState 0 1000 1000)).S = 1000000 ∧
    4294967296 * (mstar (stackState 0 1000 1000)).Top +
      u32 ((mstar (stackState 0 1000 1000)).Stack (mstar (stackState 0 1000 1000)).S) =
      (stackState 0 1000 1000).Stack (stackState 0 1000 1000).S *
        (stackState 0 1000 1000).Top :=
  ⟨by decide, by decide,
    (mstar_exact (stackState 0 1000 1000) (by decide) (by decide)).2⟩

/-! ## C14: comparisons -/

/-- C14: for all cells `a = Stack[S]` and `b = Top`, `less` leaves `Top = -1` if
`a < b` and 0 otherwise, `great` the flag of `a > b`, `equal` the flag of `a = b`
and `uless` the flag of `a < b` with both read as unsigned 32-bit values; each
leaves `S` one lower, and `Top` is never a value other than -1 or 0. -/
theorem comparisons_return_flags (s : State) :
    ((less s).Top = (if s.Stack s.S < s.Top then -1 else 0) ∧ (less s).S = s.S - 1) ∧
    ((great s).Top = (if s.Stack s.S > s.Top then -1 else 0) ∧ (great s).S = s.S - 1) ∧
    ((equal s).Top = (if s.Stack s.S = s.Top then -1 else 0) ∧ (equal s).S = s.S - 1) ∧
    ((uless s).Top = (if u32 (s.Stack s.S) < u32 s.Top then -1 else 0) ∧
      (uless s).S = s.S - 1) ∧
    ((less s).Top = -1 ∨ (less s).Top = 0) ∧ ((great s).Top = -1 ∨ (great s).Top = 0) ∧
    ((equal s).Top = -1 ∨ (equal s).Top = 0) ∧ ((uless s).Top = -1 ∨ (uless s).Top = 0) := by
  have hl : (less s).Top = (if s.Stack s.S < s.Top then -1 else 0) := by
    simp [less, LOGICAL, TRUE, FALSE]
  have hg : (great s).Top = (if s.Stack s.S > s.Top then -1 else 0) := by
    simp [great, LOGICAL, TRUE, FALSE]
  have he : (equal s).Top = (if s.Stack s.S = s.Top then -1 else 0) := by
    simp [equal, LOGICAL, TRUE, FALSE]
  have hu : (uless s).Top = (if u32 (s.Stack s.S) < u32 s.Top then -1 else 0) := by
    by_cases hlt : u32 (s.Stack s.S) < u32 s.Top <;>
      simp [uless, LOGICAL, LOWER, TRUE, FALSE, hlt]
  refine ⟨⟨hl, rfl⟩, ⟨hg, rfl⟩, ⟨he, rfl⟩, ⟨hu, rfl⟩, ?_, ?_, ?_, ?_⟩
  · rw [hl]; split <;> simp
  · rw [hg]; split <;> simp
  · rw [he]; split <;> simp
  · rw [hu]; split <;> simp

/-! ## C16: swap twice -/

/-- C16: for every machine state, `swap` executed twice leaves `Top`, the stack
pointer `S` and every slot of the data-stack array equal to their first values. -/
theorem swap_swap (s : State) :
    (swap (swap s)).Top = s.Top ∧ (swap (swap s)).S = s.S ∧
    (swap (swap s)).Stack = s.Stack := by
  refine ⟨?_, rfl, ?_⟩
  · simp [swap]
  · simp [swap]


/-! ## C18: umsta -/

/-- C18: for all cells `u1 = Stack[S]` and `u2 = Top` read as unsigned 32-bit
values, `umsta` leaves `S` unchanged and the double it leaves, high cell in `Top`
and low cell below, both read as unsigned values, is the exact product `u1 * u2`. -/
theorem umsta_exact (s : State) :
    (umsta s).S = s.S ∧
    4294967296 * u32 (umsta s).Top + u32 ((umsta s).Stack (umsta s).S) =
      u32 (s.Stack s.S) * u32 s.Top := by
  refine ⟨rfl, ?_⟩
  have hb := mul_bounds_unsigned (u32_range (s.Stack s.S)) (u32_range s.Top)
  have hT : (umsta s).Top = wrap32 (wrap64 (u32 (s.Stack s.S) * u32 s.Top) / 4294967296) := by
    simp [umsta]
  have hS : (umsta s).Stack (umsta s).S = wrap32 (wrap64 (u32 (s.Stack s.S) * u32 s.Top)) := by
    simp [umsta]
  rw [hT, hS]
  generalize u32 (s.Stack s.S) * u32 s.Top = p at hb ⊢
  simp only [u32, wrap32, wrap64]
  omega

/-! ## C19: uplus -/

/-- C19: for all cells `w1 = Stack[S]` and `w2 = Top`, `uplus` leaves `S`
unchanged, leaves below `Top` the sum `(w1 + w2) mod 2^32` (as a cell, the wrapped
sum), and leaves in `Top` a flag that is non-zero (it is -1) exactly when
`u32 w1 + u32 w2 ≥ 2^32`, and 0 otherwise. -/
theorem uplus_sum_and_carry (s : State) :
    (uplus s).S = s.S ∧
    (uplus s).Stack (uplus s).S = wrap32 (s.Stack s.S + s.Top) ∧
    u32 ((uplus s).Stack (uplus s).S) = (s.Stack s.S + s.Top) % 4294967296 ∧
    ((uplus s).Top ≠ 0 ↔ 4294967296 ≤ u32 (s.Stack s.S) + u32 s.Top) ∧
    (uplus s).Top = (if 4294967296 ≤ u32 (s.Stack s.S) + u32 s.Top then -1 else 0) := by
  have hS : (uplus s).Stack (uplus s).S = wrap32 (s.Stack s.S + s.Top) := by
    simp [uplus]
  have hT : (uplus s).Top = LOWER (wrap32 (s.Stack s.S + s.Top)) s.Top := by
    simp [uplus]
  refine ⟨rfl, hS, ?_, ?_, ?_⟩
  · rw [hS]; unfold u32 wrap32; omega
  · rw [hT]; simp only [LOWER, u32, wrap32, TRUE, FALSE]
    split <;> constructor <;> intro h <;> omega
  · rw [hT]; simp only [LOWER, u32, wrap32, TRUE, FALSE]
    split <;> split <;> omega

/-! ## C15: the word view and the byte view -/

theorem byteOf_replace (w c k : Int) (hw : 0 ≤ w ∧ w < 4294967296) (hk : 0 ≤ k ∧ k < 4) :
    byteOf (w - byteOf w k * 256 ^ k.toNat + u8 c * 256 ^ k.toNat) k = c % 256 ∧
    (∀ j, 0 ≤ j ∧ j < 4 → j ≠ k →
      byteOf (w - byteOf w k * 256 ^ k.toNat + u8 c * 256 ^ k.toNat) j = byteOf w j) ∧
    (0 ≤ w - byteOf w k * 256 ^ k.toNat + u8 c * 256 ^ k.toNat ∧
      w - byteOf w k * 256 ^ k.toNat + u8 c * 256 ^ k.toNat < 4294967296) := by
  have hk' : k = 0 ∨ k = 1 ∨ k = 2 ∨ k = 3 := by omega
  refine ⟨?_, ?_, ?_⟩
  · rcases hk' with rfl | rfl | rfl | rfl <;> simp [byteOf, u8] <;> omega
  · intro j hj hjk
    have hj' : j = 0 ∨ j = 1 ∨ j = 2 ∨ j = 3 := by omega
    rcases hk' with rfl | rfl | rfl | rfl <;> rcases hj' with rfl | rfl | rfl | rfl <;>
      first
      | exact absurd rfl hjk
      | (simp [byteOf, u8]; omega)
  · rcases hk' with rfl | rfl | rfl | rfl <;> simp [byteOf, u8] <;> omega

/-- C15: for every in-range cell address `a = 4 * i`, value `n` and lane `k` in
0..3: after `store` has written `n` at `a`, `cat` at byte address `a + k` returns
byte `k` of `n` (least significant byte first, zero-extended); and after `cstor`
has then written a byte `c` at `a + k`, `cat` at `a + k` returns `c mod 256` while
`at` on `a` returns the cell in which byte `k` is `c mod 256` and the other three
bytes are those of `n`, every other cell of memory being unchanged. -/
theorem word_and_byte_views_alias (s : State) (i k n c : Int)
    (hi : 0 ≤ i ∧ i < 4096) (hk : 0 ≤ k ∧ k < 4)
    (hT : s.Top = 4 * i) (hS : s.Stack s.S = n) :
    ∃ s1, store s = .ok s1 ∧ s1.Data i = u32 n ∧
      (∃ t, cat { s1 with Top := 4 * i + k } = .ok t ∧ t.Top = byteOf (u32 n) k) ∧
      ∃ s2, cstor { s1 with
                    Top := 4 * i + k,
                    Stack := Function.update s1.Stack s1.S c } = .ok s2 ∧
        (∃ t, cat { s2 with Top := 4 * i + k } = .ok t ∧ t.Top = c % 256) ∧
        (∃ t, atFetch { s2 with Top := 4 * i } = .ok t ∧ t.Top = wrap32 (s2.Data i)) ∧
        byteOf (s2.Data i) k = c % 256 ∧
        (∀ j, 0 ≤ j ∧ j < 4 → j ≠ k → byteOf (s2.Data i) j = byteOf (u32 n) j) ∧
        (0 ≤ s2.Data i ∧ s2.Data i < 4294967296) ∧
        (∀ i', i' ≠ i → s2.Data i' = s.Data i') := by
  have e0 : 4 * i / 4 = i := by omega
  have e1 : (4 * i + k) / 4 = i := by omega
  have e2 : (4 * i + k) % 4 = k := by omega
  have r0 : 0 ≤ 4 * i + k ∧ 4 * i + k < 4 * romsize := by simp only [romsize]; omega
  have r1 : 0 ≤ i ∧ i < romsize := by simp only [romsize]; omega
  have hu : 0 ≤ u32 n ∧ u32 n < 4294967296 := by unfold u32; omega
  obtain ⟨hb1, hb2, hb3⟩ := byteOf_replace (u32 n) c k hu hk
  refine ⟨pop { s with Data := Function.update s.Data i (u32 n), S := s.S - 1 }, ?_, ?_, ?_, ?_⟩
  · simp [store, writeData, hT, e0, r1, hS, bind, Except.bind, pure, Except.pure]
  · simp [pop]
  · exact ⟨_, by simp [cat, readCData, r0, e1, e2, pop, bind, Except.bind, pure, Except.pure]; rfl,
      rfl⟩
  · obtain ⟨s2, h2, hD⟩ : ∃ s2, cstor { pop { s with
          Data := Function.update s.Data i (u32 n), S := s.S - 1 } with
        Top := 4 * i + k,
        Stack := Function.update
          (pop { s with Data := Function.update s.Data i (u32 n), S := s.S - 1 }).Stack
          (pop { s with Data := Function.update s.Data i (u32 n), S := s.S - 1 }).S c } = .ok s2 ∧
        s2.Data = Function.update (Function.update s.Data i (u32 n)) i
          (u32 n - byteOf (u32 n) k * 256 ^ k.toNat + u8 c * 256 ^ k.toNat) := by
      refine ⟨_, by simp [cstor, writeCData, r0, e1, e2, pop, bind, Except.bind, pure,
        Except.pure]; rfl, ?_⟩
      simp [pop]
    have hDi : s2.Data i = u32 n - byteOf (u32 n) k * 256 ^ k.toNat + u8 c * 256 ^ k.toNat := by
      rw [hD]; simp
    refine ⟨s2, h2, ?_, ?_, ?_, ?_, ?_, ?_⟩
    · exact ⟨_, by simp [cat, readCData, r0, e1, e2, bind, Except.bind, pure, Except.pure]; rfl,
        by show byteOf (s2.Data i) k = _; rw [hDi]; exact hb1⟩
    · exact ⟨_, by simp [atFetch, readData, r1, e0, bind, Except.bind, pure, Except.pure]; rfl,
        rfl⟩
    · rw [hDi]; exact hb1
    · rw [hDi]; exact hb2
    · rw [hDi]; exact hb3
    · intro i' hi'
      rw [hD]; simp [Function.update_noteq hi']

/-- C15 (witness): the value `0x12345678` stored at address 8 and the byte `0xAB`
written over its lane 1. -/
theorem word_and_byte_views_alias_witness :
    ∃ s1, store (stackState 0 305419896 8) = .ok s1 ∧ s1.Data 2 = u32 305419896 ∧
      ∃ t, cat { s1 with Top := 4 * 2 + 1 } = .ok t ∧ t.Top = byteOf (u32 305419896) 1 :=
  let ⟨s1, h1, h2, h3, _⟩ := word_and_byte_views_alias (stackState 0 305419896 8)
    2 1 305419896 171 (by decide) (by decide) rfl rfl
  ⟨s1, h1, h2, h3⟩

/-! ## C17: the stack shuffles -/

/-- C17 (counterexample): on a machine with `WP = 4` and the cells ( 1 2 3 ),
`swap` leaves `WP = 3` (the old `Top`) and `rot` leaves `WP = 1` (the old third
cell). -/
theorem swap_and_rot_overwrite_WP :
    (stackState 1 2 3).WP = 4 ∧ (swap (stackState 1 2 3)).WP = 3 ∧
    (rot (stackState 1 2 3)).WP = 1 ∧
    (swap (stackState 1 2 3)).WP ≠ (stackState 1 2 3).WP ∧
    (rot (stackState 1 2 3)).WP ≠ (stackState 1 2 3).WP := by
  decide

/-- C17 (as amended): for every machine state, each of `dup`, `drop`, `over`,
`pick`, `qdup`, `ddup` and `ddrop` changes nothing except `Top`, `S` and slots of
the data-stack array: putting these three back gives the first state, so `P`,
`IP`, `WP`, `R`, the return stack and memory are identical.  `swap` and `rot`
change in addition the scratch register `WP` (to the old `Top`, and to the old
third cell) and nothing else. -/
theorem shuffles_frame (s : State) :
    { dup s with Top := s.Top, S := s.S, Stack := s.Stack } = s ∧
    { drop s with Top := s.Top, S := s.S, Stack := s.Stack } = s ∧
    { over s with Top := s.Top, S := s.S, Stack := s.Stack } = s ∧
    { pick s with Top := s.Top, S := s.S, Stack := s.Stack } = s ∧
    { qdup s with Top := s.Top, S := s.S, Stack := s.Stack } = s ∧
    { ddup s with Top := s.Top, S := s.S, Stack := s.Stack } = s ∧
    { ddrop s with Top := s.Top, S := s.S, Stack := s.Stack } = s ∧
    { swap s with Top := s.Top, S := s.S, Stack := s.Stack, WP := s.WP } = s ∧
    { rot s with Top := s.Top, S := s.S, Stack := s.Stack, WP := s.WP } = s ∧
    (swap s).WP = s.Top ∧ (rot s).WP = s.Stack (s.S - 1) := by
  refine ⟨rfl, rfl, rfl, rfl, ?_, rfl, rfl, rfl, rfl, rfl, rfl⟩
  unfold qdup
  split <;> rfl


/-! ## C20: wraparound of the stack pointers -/

/-- C20: for every machine state, whatever `S` and `R`, the primitives that touch
only the two stacks return a state: `execute` on the byte codes of `drop`, `dup`,
`swap`, `over`, `rot`, `pick`, `tor`, `rfrom` and `rat` is never a fault, and
`push` and `pop` are total.  The pointers move modulo 256: a push at `S = 255`
writes slot 0 and leaves `S = 0`, a pop at `S = 0` leaves `S = 255`, likewise for
`R` with `tor` and `rfrom`, and 256 consecutive pushes return `S` to its first
value. -/
theorem stack_pointers_wrap (s : State) (v : Int) :
    (execute 23 s = .ok (drop s) ∧ execute 24 s = .ok (dup s) ∧
      execute 25 s = .ok (swap s) ∧ execute 26 s = .ok (over s) ∧
      execute 34 s = .ok (rot s) ∧ execute 56 s = .ok (pick s) ∧
      execute 20 s = .ok (tor s) ∧ execute 18 s = .ok (rfrom s) ∧
      execute 19 s = .ok (rat s)) ∧
    ((push v s).S.val = (s.S.val + 1) % 256 ∧ (pop s).S.val = (s.S.val + 255) % 256 ∧
      (dup s).S.val = (s.S.val + 1) % 256 ∧ (over s).S.val = (s.S.val + 1) % 256 ∧
      (tor s).R.val = (s.R.val + 1) % 256 ∧ (tor s).S.val = (s.S.val + 255) % 256 ∧
      (rfrom s).R.val = (s.R.val + 255) % 256 ∧ (rfrom s).S.val = (s.S.val + 1) % 256 ∧
      (rat s).R = s.R ∧ (rat s).S.val = (s.S.val + 1) % 256) ∧
    ((push v { s with S := 255 }).S = 0 ∧ (push v { s with S := 255 }).Stack 0 = s.Top ∧
      (push v { s with S := 255 }).Top = v) ∧
    ((pop { s with S := 0 }).S = 255 ∧ (pop { s with S := 0 }).Top = s.Stack 0) ∧
    ((tor { s with R := 255 }).R = 0 ∧ (tor { s with R := 255 }).rack 0 = s.Top) ∧
    ((rfrom { s with R := 0 }).R = 255 ∧ (rfrom { s with R := 0 }).Top = s.rack 0) ∧
    (∀ vs : List Int, (pushAll vs s).S = s.S + (vs.length : Fin 256)) ∧
    (∀ f : Fin 256 → Int, (pushAll (List.ofFn f) s).S = s.S) := by
  have hsub : ∀ x : Fin 256, (x - 1).val = (x.val + 255) % 256 := by
    intro x
    rw [Fin.sub_def]
    simp only [Fin.val_one]
    omega
  have hadd : ∀ x : Fin 256, (x + 1).val = (x.val + 1) % 256 := by
    intro x
    rw [Fin.val_add]
    simp
  refine ⟨⟨rfl, rfl, rfl, rfl, rfl, rfl, rfl, rfl, rfl⟩, ?_, ?_, ?_, ?_, ?_, ?_, ?_⟩
  · exact ⟨hadd _, hsub _, hadd _, hadd _, hadd _, hsub _, hsub _, hadd _, rfl, hadd _⟩
  · refine ⟨rfl, ?_, rfl⟩
    simp [push]
  · exact ⟨rfl, rfl⟩
  · refine ⟨rfl, ?_⟩
    simp [tor, pop]
  · exact ⟨rfl, rfl⟩
  · exact fun vs => pushAll_S vs s
  · intro f
    rw [pushAll_S, List.length_ofFn]
    have h256 : ((256 : Nat) : Fin 256) = 0 := by decide
    rw [h256, add_zero]

end EForth
